import Mathlib

/-!
Shallow embedding of the `haridevelops/db` write-ahead log (package `wal`).

The Go source is embedded as follows:

* Machine bytes are `Nat` values; a byte produced by a Go `byte(x)` cast is
  `x % 256`.
* `crc32.ChecksumIEEE` is the bit-reversed-polynomial CRC32 computed below.
* The protobuf record `Wal_Data_Log` becomes a structure over `Nat` fields.
* A segment file's contents after its 16-byte header become a `List Entry`:
  each element records the outcome of reading one length-prefixed frame and
  protobuf-decoding its payload, exactly the three outcomes the Go scan loops
  distinguish (decoded record / stop marker / decode failure).
* The mutable `Wal` struct becomes a state record; filesystem effects are
  reduced to the fields the source inspects (file size via `Stat`, buffered
  byte count via `Buffered`, the sets of segment indices in the log directory
  and the archival directory).  I/O failures are injected through an `Env`
  of booleans, one per fallible primitive the source calls.
-/

namespace Db

/-- Reversed CRC-32/IEEE polynomial `0xEDB88320`, as used by Go's
`hash/crc32` package for `crc32.IEEE`. -/
def crc32Poly : Nat := 0xEDB88320

/-- One shift-and-conditionally-xor round of the bitwise CRC32 computation. -/
def crc32Round (c : Nat) : Nat :=
  if c % 2 = 1 then Nat.xor (c / 2) crc32Poly else c / 2

/-- Fold one input byte into the CRC state (8 rounds). -/
def crc32UpdateByte (c b : Nat) : Nat :=
  crc32Round^[8] (Nat.xor c (b % 256))

/-- `crc32.ChecksumIEEE` over a byte sequence: initial state `0xFFFFFFFF`,
final complement. -/
def crc32 (bs : List Nat) : Nat :=
  Nat.xor (bs.foldl crc32UpdateByte 0xFFFFFFFF) 0xFFFFFFFF

/-- The single low byte of a 64-bit value, Go's `byte(x)` cast. -/
def lowByte (x : Nat) : Nat := x % 256

/-- `Log_Type` enum of the protobuf schema: `DATA` and `CHECKPOINT`. -/
inductive Log_Type
  | DATA
  | CHECKPOINT
deriving DecidableEq, Repr

/-- The protobuf message `Wal_Data_Log`: `{LogSequenceNumber, Type, Data, CRC}`. -/
structure Wal_Data_Log where
  logSequenceNumber : Nat
  type : Log_Type
  data : List Nat
  crc : Nat
deriving DecidableEq, Repr

/-- `ValidDataIntegrity` (src/wal/data_integrity.go): the stored CRC must equal
`crc32.ChecksumIEEE(append(Data, byte(LogSequenceNumber)))`. -/
def validDataIntegrity (walDataLog : Wal_Data_Log) : Bool :=
  walDataLog.crc =
    crc32 (walDataLog.data ++ [lowByte walDataLog.logSequenceNumber])

/-- One length-prefixed frame of a segment file, as seen by the scan loops
(`getLastLogSequenceNo`, `ReadAllDataLogs`).  The loops read a 4-byte size,
then the payload, then protobuf-decode it; the three constructors are the
three outcomes those loops distinguish:
* `framed r` — a positive size was read and the payload unmarshalled to `r`
  (integrity of `r` is checked separately by `UnmarshalAndVerifyDataLog`);
* `padding` — the scan stops here without error: the size prefix was `≤ 0`,
  or the reader hit end-of-file;
* `corrupt` — reading or `proto.Unmarshal` failed, which aborts the scan
  with an error.
The list models the bytes after the 16-byte segment header, which both Go
loops skip with `file.Seek(16, io.SeekStart)` before scanning. -/
inductive Entry
  | framed (r : Wal_Data_Log)
  | padding
  | corrupt
deriving DecidableEq, Repr

/-- Error kinds surfaced by the embedded operations. -/
inductive Err
  | io
  | decodeFailure
  | integrity
  | noCheckpoint
deriving DecidableEq, Repr

deriving instance DecidableEq for Except

/-- `ReadAllDataLogs` (src/unnamed/part_002): scan frames forward, stopping
silently at EOF or a non-positive size, aborting with an error when a frame
fails to unmarshal or fails `ValidDataIntegrity`.  Like the Go function it
returns the records read so far together with the error, if any. -/
def ReadAllDataLogs : List Entry → List Wal_Data_Log × Option Err
  | [] => ([], none)
  | .padding :: _ => ([], none)
  | .corrupt :: _ => ([], some .decodeFailure)
  | .framed r :: rest =>
    if validDataIntegrity r then
      let res := ReadAllDataLogs rest
      (r :: res.1, res.2)
    else ([], some .integrity)

/-- Accumulating loop of `Wal.getLastLogSequenceNo` (src/unnamed/part_001):
remembers the last successfully decoded record while scanning forward. -/
def getLastLogSequenceNoAux : Option Wal_Data_Log → List Entry →
    Except Err (Option Wal_Data_Log)
  | last, [] => .ok last
  | last, .padding :: _ => .ok last
  | _, .corrupt :: _ => .error .decodeFailure
  | _, .framed r :: rest =>
    if validDataIntegrity r then getLastLogSequenceNoAux (some r) rest
    else .error .integrity

/-- `Wal.getLastLogSequenceNo`: LSN of the last successfully decoded record
of the active segment, `0` when the segment holds no records. -/
def getLastLogSequenceNo (es : List Entry) : Except Err Nat :=
  (getLastLogSequenceNoAux none es).map
    (fun last => (last.map (·.logSequenceNumber)).getD 0)

/-- The framed records up to the first stop marker or corrupt frame: the
records a clean forward scan decodes. -/
def scannedFrames : List Entry → List Wal_Data_Log
  | .framed r :: rest => r :: scannedFrames rest
  | _ => []

/-- A scan of `es` reaches its stopping point without any decode or
integrity failure. -/
def cleanScan : List Entry → Bool
  | [] => true
  | .padding :: _ => true
  | .corrupt :: _ => false
  | .framed r :: rest => validDataIntegrity r && cleanScan rest

/-- LSN of the last record a clean scan decodes (`0` if none). -/
def lastScannedLsn (es : List Entry) : Nat :=
  (((scannedFrames es).getLast?).map (·.logSequenceNumber)).getD 0

/-! ## The appender state machine

The mutable `Wal` struct (src/unnamed/part_001, second variant).  Fields the
claims never inspect (`logDirectory`, the file handle itself, the mutex, the
timer, the contexts) are dropped; the filesystem facts the source reads are
kept: `Stat().Size()` of the active segment (`segmentSizeOnDisk`),
`bufferWriter.Buffered()` (`buffered`), and the segment indices present in
the log directory and in `data/archival`. -/

structure Wal where
  lastLogSequenceNo : Nat
  lastCheckpointLSN : Nat
  currentSegmentIndex : Nat
  segmentSizeOnDisk : Nat
  buffered : Nat
  activeDir : List Nat
  archivalDir : List Nat
  maxFileSize : Nat
  maxSegments : Nat
  triggerFSync : Bool
deriving DecidableEq, Repr

/-- Injected outcomes of the fallible I/O primitives a single operation may
call: `Stat` in the rotation check, `Flush`/`Sync` inside `Wal.Sync`, and the
close/create pair inside `rotateLog`. -/
structure Env where
  statFails : Bool
  flushFails : Bool
  fsyncFails : Bool
  rotateFails : Bool
deriving DecidableEq, Repr

/-- All I/O primitives succeed. -/
def envOk : Env :=
  { statFails := false, flushFails := false, fsyncFails := false,
    rotateFails := false }

/-- `findOldestSegmentFile`: the Go loop over globbed files keeping the
smallest parsed segment index (initial best is `math.MaxInt64`, modelled by
`none`). -/
def findOldestSegmentFile (files : List Nat) : Option Nat :=
  files.foldl
    (fun best i =>
      match best with
      | none => some i
      | some m => if i < m then some i else some m)
    none

/-- `os.Create` on the segment path for index `i`: the directory gains the
file (creating over an existing name truncates it, leaving the name set
unchanged). -/
def addFile (dir : List Nat) (i : Nat) : List Nat :=
  if i ∈ dir then dir else i :: dir

/-- `Wal.moveOldestSegmentToArchival`: glob the log directory; when files
exist, rename the smallest-indexed one into `data/archival` under the same
base name, so the archival directory gains exactly that index. -/
def Wal.moveOldestSegmentToArchival (wal : Wal) : Wal :=
  match findOldestSegmentFile wal.activeDir with
  | none => wal
  | some m =>
    { wal with activeDir := wal.activeDir.erase m,
               archivalDir := wal.archivalDir ++ [m] }

/-- Flush-and-optionally-fsync part of `Wal.Sync`: `bufferWriter.Flush()`
moves the buffered bytes into the file, then `currentSegment.Sync()` runs
when `triggerFSync` is set.  (`resetTimer` has no modelled state.) -/
def Wal.flushAndFsync (wal : Wal) (env : Env) : Except Err Unit × Wal :=
  if env.flushFails then (.error .io, wal)
  else
    let wal := { wal with
      segmentSizeOnDisk := wal.segmentSizeOnDisk + wal.buffered,
      buffered := 0 }
    if wal.triggerFSync && env.fsyncFails then (.error .io, wal)
    else (.ok (), wal)

/-- `Wal.rotateLog`: `Sync(false)`, close the segment, bump the index, run
retention when the new index reaches `maxSegments`, then create the next
segment file (16-byte header already written) with a fresh empty buffer. -/
def Wal.rotateLog (wal : Wal) (env : Env) : Except Err Unit × Wal :=
  match wal.flushAndFsync env with
  | (.error e, wal) => (.error e, wal)
  | (.ok _, wal) =>
    if env.rotateFails then (.error .io, wal)
    else
      let newIndex := wal.currentSegmentIndex + 1
      let wal := { wal with currentSegmentIndex := newIndex }
      let wal :=
        if wal.maxSegments ≤ newIndex then wal.moveOldestSegmentToArchival
        else wal
      (.ok (), { wal with activeDir := addFile wal.activeDir newIndex,
                          segmentSizeOnDisk := 16, buffered := 0 })

/-- `Wal._rotateLog`: `Stat` the active segment and rotate when
`Size() + Buffered() + currentDataLogSize >= maxFileSize`.  Note the Go code
passes `currentDataLogSize = len(marshaledData)`, the encoded length without
its 4-byte size prefix. -/
def Wal._rotateLog (wal : Wal) (env : Env) (currentDataLogSize : Nat) :
    Except Err Unit × Wal :=
  if env.statFails then (.error .io, wal)
  else if wal.maxFileSize ≤
      wal.segmentSizeOnDisk + wal.buffered + currentDataLogSize then
    wal.rotateLog env
  else (.ok (), wal)

/-- `Wal.writeDataLogToBuffer`: marshal the record (its encoded length is the
parameter `msize`, supplied by the protobuf encoder), run the rotation check,
then stage the 4-byte little-endian size prefix and the encoded bytes into
the buffered writer.  The third component lists the records this call staged. -/
def Wal.writeDataLogToBuffer (wal : Wal) (env : Env) (walDataLog : Wal_Data_Log)
    (msize : Nat) : Except Err Unit × Wal × List Wal_Data_Log :=
  match wal._rotateLog env msize with
  | (.error e, wal) => (.error e, wal, [])
  | (.ok _, wal) =>
    (.ok (), { wal with buffered := wal.buffered + 4 + msize }, [walDataLog])

/-- The `DATA` record `Wal.Write` builds:
`{LogSequenceNumber: lsn, Type: DATA, Data: data,
  CRC: crc32.ChecksumIEEE(append(data, byte(lsn)))}`. -/
def writeRecord (lsn : Nat) (data : List Nat) : Wal_Data_Log :=
  { logSequenceNumber := lsn, type := .DATA, data := data,
    crc := crc32 (data ++ [lowByte lsn]) }

/-- `Wal.Write`: under the log lock, increment `lastLogSequenceNo`, build the
`DATA` record and stage it through `writeDataLogToBuffer`. -/
def Wal.Write (wal : Wal) (env : Env) (data : List Nat) (msize : Nat) :
    Except Err Unit × Wal × List Wal_Data_Log :=
  let wal := { wal with lastLogSequenceNo := wal.lastLogSequenceNo + 1 }
  wal.writeDataLogToBuffer env (writeRecord wal.lastLogSequenceNo data) msize

/-- The `CHECKPOINT` record `Wal.checkpoint` builds: empty data and
`CRC: crc32.ChecksumIEEE([]byte\x7bbyte(lsn)\x7d)`. -/
def checkpointRecord (lsn : Nat) : Wal_Data_Log :=
  { logSequenceNumber := lsn, type := .CHECKPOINT, data := [],
    crc := crc32 [lowByte lsn] }

/-- `Wal.checkpoint`: consume an LSN, record it in `lastCheckpointLSN`, and
stage a `CHECKPOINT` record; a staging failure is only printed, never
returned, and none of the counters are restored. -/
def Wal.checkpoint (wal : Wal) (env : Env) (msize : Nat) :
    Wal × List Wal_Data_Log :=
  let wal := { wal with
    lastLogSequenceNo := wal.lastLogSequenceNo + 1,
    lastCheckpointLSN := wal.lastLogSequenceNo + 1 }
  match wal.writeDataLogToBuffer env (checkpointRecord wal.lastLogSequenceNo)
      msize with
  | (.error _, wal, _) => (wal, [])
  | (.ok _, wal, staged) => (wal, staged)

/-- `Wal.Sync(shouldCheckpointed)`: flush, fsync when `triggerFSync`, and —
only in that case — emit a checkpoint record when asked to. -/
def Wal.Sync (wal : Wal) (env : Env) (msize : Nat)
    (shouldCheckpointed : Bool) : Except Err Unit × Wal × List Wal_Data_Log :=
  match wal.flushAndFsync env with
  | (.error e, wal) => (.error e, wal, [])
  | (.ok _, wal) =>
    if wal.triggerFSync && shouldCheckpointed then
      let res := wal.checkpoint env msize
      (.ok (), res.1, res.2)
    else (.ok (), wal, [])

/-- `Wal.Close`: cancel the housekeeper, run a final `Sync(true)`, close the
active segment. -/
def Wal.Close (wal : Wal) (env : Env) (msize : Nat) :
    Except Err Unit × Wal × List Wal_Data_Log :=
  match wal.Sync env msize true with
  | (.error e, wal, staged) => (.error e, wal, staged)
  | (.ok _, wal, staged) => (.ok (), wal, staged)

/-- `GetLastSegmentFileNo`: largest parsed index among the globbed segment
files, `0` when there are none. -/
def GetLastSegmentFileNo (files : List Nat) : Nat :=
  files.foldl (fun last i => if last < i then i else last) 0

/-- `NewWal` (src/unnamed/part_001): create the directory, glob the segment
files, create segment `0` when none exist, open the highest-indexed segment
for append and seek to its end, then recover `lastLogSequenceNo` by scanning
that segment (`activeEntries`, whose on-disk byte count past nothing is
`activeSize`).  A scan error aborts construction. -/
def NewWal (files : List Nat) (activeEntries : List Entry) (activeSize : Nat)
    (maxFileSize maxSegments : Nat) (triggerFSync : Bool) : Except Err Wal :=
  let files := if files.isEmpty then [0] else files
  match getLastLogSequenceNo activeEntries with
  | .error e => .error e
  | .ok n =>
    .ok { lastLogSequenceNo := n, lastCheckpointLSN := 0,
          currentSegmentIndex := GetLastSegmentFileNo files,
          segmentSizeOnDisk := activeSize, buffered := 0,
          activeDir := files, archivalDir := [],
          maxFileSize := maxFileSize, maxSegments := maxSegments,
          triggerFSync := triggerFSync }

/-- One client-visible operation against an open log. -/
inductive Op
  | write (data : List Nat) (msize : Nat)
  | sync (shouldCheckpointed : Bool) (msize : Nat)
deriving Repr

/-- Run one operation, returning the next state and the records it staged. -/
def Wal.step (wal : Wal) (env : Env) (op : Op) : Wal × List Wal_Data_Log :=
  match op with
  | .write data msize =>
    let res := wal.Write env data msize
    (res.2.1, res.2.2)
  | .sync b msize =>
    let res := wal.Sync env msize b
    (res.2.1, res.2.2)

/-- Run a sequence of operations, concatenating the staged records in the
order they were staged. -/
def Wal.run (wal : Wal) : List (Env × Op) → Wal × List Wal_Data_Log
  | [] => (wal, [])
  | (env, op) :: rest =>
    let first := wal.step env op
    let more := first.1.run rest
    (more.1, first.2 ++ more.2)

/-! ## Recovery and replay

`getLastCheckPointLSNWalEntry` and `RecoverFromCheckpoint` open segment files
by index, first in the log directory and then in `data/archival`.  The
filesystem is abstracted as a map from segment index to where (if anywhere)
that segment file lives and what its post-header contents scan as. -/

/-- Where segment `i` lives: the log directory, the archival directory, or
nowhere. -/
inductive SegFile
  | activeFile (es : List Entry)
  | archivedFile (es : List Entry)
  | absent

/-- Contents reachable by the open-with-archival-fallback pattern both
recovery loops use. -/
def SegFile.contents? : SegFile → Option (List Entry)
  | .activeFile es => some es
  | .archivedFile es => some es
  | .absent => none

/-- A store of segment files, indexed by segment number. -/
def SegStore := Nat → SegFile

/-- Body of one iteration of the backward checkpoint search: open segment
`idx` (falling back to the archival directory, skipping to `fallback` when
the file exists in neither place), read all its records — propagating any
read error — and scan them in reverse for the first `CHECKPOINT`. -/
def segScan (store : SegStore) (idx : Nat)
    (fallback : Except Err (Wal_Data_Log × Nat)) :
    Except Err (Wal_Data_Log × Nat) :=
  match (store idx).contents? with
  | none => fallback
  | some es =>
    match ReadAllDataLogs es with
    | (_, some e) => .error e
    | (records, none) =>
      match records.reverse.find? (fun r => r.type == Log_Type.CHECKPOINT) with
      | some ck => .ok (ck, idx)
      | none => fallback

/-- `Wal.getLastCheckPointLSNWalEntry`: iterate segment indices from the
current one down to `0`; the first segment (from the top) holding a
`CHECKPOINT` yields its last such record; otherwise fail with the
no-checkpoint error. -/
def getLastCheckPointLSNWalEntry (store : SegStore) :
    Nat → Except Err (Wal_Data_Log × Nat)
  | 0 => segScan store 0 (.error .noCheckpoint)
  | n + 1 => segScan store (n + 1) (getLastCheckPointLSNWalEntry store n)

/-- The closed interval of segment indices `[a, b]`. -/
def rangeIcc (a b : Nat) : List Nat :=
  (List.range (b + 1 - a)).map (fun k => a + k)

/-- What the sink receives for one record: `(LSN, type, data)`. -/
def recTriple (r : Wal_Data_Log) : Nat × Log_Type × List Nat :=
  (r.logSequenceNumber, r.type, r.data)

/-- Forward replay half of `RecoverFromCheckpoint`: for each index, open the
segment (archival fallback; a segment missing from both places is an error
here, unlike during the search), read all records, and deliver those with
LSN strictly above the checkpoint's to the sink, in file order. -/
def replaySegments (store : SegStore) (checkpointLsn : Nat) :
    List Nat → Except Err (List (Nat × Log_Type × List Nat))
  | [] => .ok []
  | idx :: rest =>
    match (store idx).contents? with
    | none => .error .io
    | some es =>
      match ReadAllDataLogs es with
      | (_, some e) => .error e
      | (records, none) =>
        match replaySegments store checkpointLsn rest with
        | .error e => .error e
        | .ok tail =>
          .ok (((records.filter
            (fun r => checkpointLsn < r.logSequenceNumber)).map recTriple)
            ++ tail)

/-- `Wal.RecoverFromCheckpoint`: locate the most recent checkpoint, then
stream every record with a larger LSN from that segment forward to the
current one.  The delivered list is the sink's view (the Go code prints each
triple). -/
def RecoverFromCheckpoint (store : SegStore) (currentSegmentIndex : Nat) :
    Except Err (List (Nat × Log_Type × List Nat)) :=
  match getLastCheckPointLSNWalEntry store currentSegmentIndex with
  | .error e => .error e
  | .ok (ck, segmentIndex) =>
    replaySegments store ck.logSequenceNumber
      (rangeIcc segmentIndex currentSegmentIndex)

/-- The records `ReadAllDataLogs` yields for segment `i` (empty when the
segment exists nowhere). -/
def segRecords (store : SegStore) (i : Nat) : List Wal_Data_Log :=
  match (store i).contents? with
  | none => []
  | some es => (ReadAllDataLogs es).1

/-- Concatenated records of the given segment indices, in index order. -/
def concatRecords (store : SegStore) : List Nat → List Wal_Data_Log
  | [] => []
  | i :: rest => segRecords store i ++ concatRecords store rest

/-- Every record of the log, in segment order `0, 1, …, current`. -/
def allRecords (store : SegStore) (current : Nat) : List Wal_Data_Log :=
  concatRecords store (rangeIcc 0 current)

/-- Segment `i` holds at least one `CHECKPOINT` record. -/
def segHasCheckpoint (store : SegStore) (i : Nat) : Bool :=
  (segRecords store i).any (fun r => r.type == Log_Type.CHECKPOINT)

/-- Every segment file present at index `i` scans cleanly. -/
def cleanSegAt (store : SegStore) (i : Nat) : Prop :=
  ∀ es, (store i).contents? = some es → cleanScan es = true

/-! ## Segment header codec (src/wal/segment_header.go) -/

/-- Little-endian layout of a `uint32`. -/
def putUint32LE (n : Nat) : List Nat :=
  [n % 256, n / 256 % 256, n / 65536 % 256, n / 16777216 % 256]

/-- Little-endian layout of a `uint64` (Go writes `CreatedAt` through a
`uint64` cast). -/
def putUint64LE (n : Nat) : List Nat :=
  [n % 256, n / 256 % 256, n / 65536 % 256, n / 16777216 % 256,
   n / 4294967296 % 256, n / 1099511627776 % 256,
   n / 281474976710656 % 256, n / 72057594037927936 % 256]

/-- Read a little-endian `uint32` from the first 4 bytes. -/
def leUint32 (bs : List Nat) : Nat :=
  bs.getD 0 0 + 256 * bs.getD 1 0 + 65536 * bs.getD 2 0 +
    16777216 * bs.getD 3 0

/-- Read a little-endian `uint64` from the first 8 bytes. -/
def leUint64 (bs : List Nat) : Nat :=
  bs.getD 0 0 + 256 * bs.getD 1 0 + 65536 * bs.getD 2 0 +
    16777216 * bs.getD 3 0 + 4294967296 * bs.getD 4 0 +
    1099511627776 * bs.getD 5 0 + 281474976710656 * bs.getD 6 0 +
    72057594037927936 * bs.getD 7 0

/-- Header decode errors (`ErrInvalidHeaderSize`, `ErrInvalidChecksum`). -/
inductive HeaderErr
  | invalidHeaderSize
  | invalidChecksum
deriving DecidableEq, Repr

/-- `SegmentHeader`: segment id, creation timestamp (its `uint64` bit
pattern), and self-checksum. -/
structure SegmentHeader where
  segmentID : Nat
  createdAt : Nat
  headerChecksum : Nat
deriving DecidableEq, Repr

/-- `calculateChecksum`: CRC32-IEEE over the little-endian layout of
`SegmentID` and `CreatedAt` (the first 12 header bytes). -/
def SegmentHeader.calculateChecksum (h : SegmentHeader) : Nat :=
  crc32 (putUint32LE h.segmentID ++ putUint64LE h.createdAt)

/-- `NewSegmentHeader`: stamp the creation time (`nowNanos`, an input here)
and fill in the self-checksum. -/
def NewSegmentHeader (segmentID : Nat) (nowNanos : Nat) : SegmentHeader :=
  let h : SegmentHeader :=
    { segmentID := segmentID, createdAt := nowNanos, headerChecksum := 0 }
  { h with headerChecksum := h.calculateChecksum }

/-- `ToBytes`: the 16-byte little-endian header layout. -/
def SegmentHeader.ToBytes (h : SegmentHeader) : List Nat :=
  putUint32LE h.segmentID ++ putUint64LE h.createdAt ++
    putUint32LE h.headerChecksum

/-- `ParseSegmentHeader`: require 16 bytes, read the three fields, and
require the stored checksum to match the recomputed one. -/
def ParseSegmentHeader (buf : List Nat) : Except HeaderErr SegmentHeader :=
  if buf.length < 16 then .error .invalidHeaderSize
  else
    let h : SegmentHeader :=
      { segmentID := leUint32 (buf.take 4),
        createdAt := leUint64 ((buf.drop 4).take 8),
        headerChecksum := leUint32 ((buf.drop 12).take 4) }
    if h.calculateChecksum = h.headerChecksum then .ok h
    else .error .invalidChecksum

/-! ## CRC32 range and little-endian round-trip lemmas -/

theorem crc32Round_lt {c : Nat} (h : c < 4294967296) :
    crc32Round c < 4294967296 := by
  unfold crc32Round
  split
  · have h1 : c / 2 < 2 ^ 32 := by omega
    have h2 : crc32Poly < 2 ^ 32 := by norm_num [crc32Poly]
    have := Nat.xor_lt_two_pow h1 h2
    simpa using this
  · omega

theorem crc32Round_iter_lt {c : Nat} (h : c < 4294967296) (k : Nat) :
    crc32Round^[k] c < 4294967296 := by
  induction k generalizing c with
  | zero => simpa using h
  | succ n ih =>
    rw [Function.iterate_succ_apply]
    exact ih (crc32Round_lt h)

theorem crc32UpdateByte_lt {c : Nat} (h : c < 4294967296) (b : Nat) :
    crc32UpdateByte c b < 4294967296 := by
  unfold crc32UpdateByte
  apply crc32Round_iter_lt
  have h1 : c < 2 ^ 32 := by omega
  have h2 : b % 256 < 2 ^ 32 := by omega
  have := Nat.xor_lt_two_pow h1 h2
  simpa using this

theorem crc32_foldl_lt {c : Nat} (h : c < 4294967296) (bs : List Nat) :
    bs.foldl crc32UpdateByte c < 4294967296 := by
  induction bs generalizing c with
  | nil => simpa using h
  | cons b rest ih =>
    simpa using ih (crc32UpdateByte_lt h b)

/-- `crc32.ChecksumIEEE` always fits in a `uint32`. -/
theorem crc32_lt (bs : List Nat) : crc32 bs < 4294967296 := by
  unfold crc32
  have h1 : bs.foldl crc32UpdateByte 0xFFFFFFFF < 2 ^ 32 := by
    have := crc32_foldl_lt (c := 0xFFFFFFFF) (by norm_num) bs
    omega
  have h2 : (0xFFFFFFFF : Nat) < 2 ^ 32 := by norm_num
  have := Nat.xor_lt_two_pow h1 h2
  simpa using this

theorem leUint32_putUint32LE {n : Nat} (h : n < 4294967296) :
    leUint32 (putUint32LE n) = n := by
  simp [leUint32, putUint32LE, List.getD]
  omega

theorem leUint64_putUint64LE {n : Nat} (h : n < 18446744073709551616) :
    leUint64 (putUint64LE n) = n := by
  simp [leUint64, putUint64LE, List.getD]
  omega

/-- C7: for every `u32` segment id (and any creation timestamp), parsing the
16 bytes produced by encoding succeeds, returns the same header, the header
carries exactly the encoded id, and its stored checksum matches the
recomputed CRC32-IEEE over the first 12 bytes. -/
theorem C7_segment_header_roundtrip (id t : Nat) (hid : id < 4294967296)
    (ht : t < 18446744073709551616) :
    ParseSegmentHeader ((NewSegmentHeader id t).ToBytes) =
      .ok (NewSegmentHeader id t) ∧
    (NewSegmentHeader id t).segmentID = id ∧
    (NewSegmentHeader id t).headerChecksum =
      (NewSegmentHeader id t).calculateChecksum := by
  have hk : (NewSegmentHeader id t).headerChecksum =
      crc32 (putUint32LE id ++ putUint64LE t) := rfl
  have hkl : (NewSegmentHeader id t).headerChecksum < 4294967296 := by
    rw [hk]; exact crc32_lt _
  have hbytes : (NewSegmentHeader id t).ToBytes =
      putUint32LE id ++ putUint64LE t ++
        putUint32LE ((NewSegmentHeader id t).headerChecksum) := rfl
  have htake4 : ((NewSegmentHeader id t).ToBytes).take 4 = putUint32LE id := by
    rw [hbytes]; rfl
  have htake8 : (((NewSegmentHeader id t).ToBytes).drop 4).take 8 =
      putUint64LE t := by
    rw [hbytes]; rfl
  have htake12 : (((NewSegmentHeader id t).ToBytes).drop 12).take 4 =
      putUint32LE ((NewSegmentHeader id t).headerChecksum) := by
    rw [hbytes]; rfl
  have hlen : ((NewSegmentHeader id t).ToBytes).length = 16 := by
    rw [hbytes]; rfl
  refine ⟨?_, rfl, rfl⟩
  unfold ParseSegmentHeader
  rw [hlen, htake4, htake8, htake12,
    leUint32_putUint32LE hid, leUint64_putUint64LE ht,
    leUint32_putUint32LE hkl]
  have hck : SegmentHeader.calculateChecksum
      { segmentID := id, createdAt := t,
        headerChecksum := (NewSegmentHeader id t).headerChecksum } =
      (NewSegmentHeader id t).headerChecksum := by
    rw [hk]; rfl
  simp [hck, NewSegmentHeader, SegmentHeader.calculateChecksum]

/-- Witness for C7 at `id = 5`, `t = 99`. -/
theorem C7_segment_header_roundtrip_witness :
    ParseSegmentHeader ((NewSegmentHeader 5 99).ToBytes) =
      .ok (NewSegmentHeader 5 99) ∧
    (NewSegmentHeader 5 99).segmentID = 5 ∧
    (NewSegmentHeader 5 99).headerChecksum =
      (NewSegmentHeader 5 99).calculateChecksum :=
  C7_segment_header_roundtrip 5 99 (by norm_num) (by norm_num)

/-! ## Append-path lemmas -/

theorem rotateLog_envOk (wal : Wal) :
    (wal.rotateLog envOk).1 = .ok () ∧
    (wal.rotateLog envOk).2.currentSegmentIndex =
      wal.currentSegmentIndex + 1 ∧
    (wal.rotateLog envOk).2.segmentSizeOnDisk = 16 ∧
    (wal.rotateLog envOk).2.buffered = 0 ∧
    (wal.rotateLog envOk).2.maxFileSize = wal.maxFileSize ∧
    (wal.rotateLog envOk).2.maxSegments = wal.maxSegments ∧
    (wal.rotateLog envOk).2.lastLogSequenceNo = wal.lastLogSequenceNo ∧
    (wal.rotateLog envOk).2.lastCheckpointLSN = wal.lastCheckpointLSN := by
  unfold Wal.rotateLog Wal.flushAndFsync Wal.moveOldestSegmentToArchival
  by_cases hr : wal.maxSegments ≤ wal.currentSegmentIndex + 1 <;>
    cases hf : findOldestSegmentFile wal.activeDir <;>
      simp [envOk, hr, hf]

/-- A state exercising the rotation check: a header-only active segment,
empty buffer, `max_file_size = 100`. -/
def walA : Wal :=
  { lastLogSequenceNo := 0, lastCheckpointLSN := 0, currentSegmentIndex := 0,
    segmentSizeOnDisk := 16, buffered := 0, activeDir := [0],
    archivalDir := [], maxFileSize := 100, maxSegments := 3,
    triggerFSync := true }

/-- C3 counterexample: appending a record whose encoded length is 81 bytes to
`walA` satisfies the claimed pre-write condition
`stat + buffered + framed_size ≥ max_file_size` (16 + 0 + 85 ≥ 100), yet the
append succeeds without rotating (the code compares the unframed length,
16 + 0 + 81 < 100) and leaves the active segment holding
16 + 85 = 101 > 100 bytes between file and buffer. -/
theorem C3_size_bound_counterexample :
    (walA.Write envOk [] 81).1 = .ok () ∧
    walA.maxFileSize ≤ walA.segmentSizeOnDisk + walA.buffered + (4 + 81) ∧
    (walA.Write envOk [] 81).2.1.currentSegmentIndex =
      walA.currentSegmentIndex ∧
    walA.maxFileSize <
      (walA.Write envOk [] 81).2.1.segmentSizeOnDisk +
        (walA.Write envOk [] 81).2.1.buffered := by decide

/-- C3 amended: the pre-write rotation check compares
`stat(active).size + buffered_bytes + encoded_size` (the marshalled length
without its 4-byte prefix) against `max_file_size`; when it triggers,
rotation happens before the write is staged (the record lands alone in the
new segment's buffer), and when it does not, the staged bytes may exceed
`max_file_size` by up to 3. -/
theorem C3_amended_rotation_check (wal : Wal) (data : List Nat)
    (msize : Nat) :
    (wal.Write envOk data msize).1 = .ok () ∧
    (wal.maxFileSize ≤ wal.segmentSizeOnDisk + wal.buffered + msize →
      (wal.Write envOk data msize).2.1.currentSegmentIndex =
        wal.currentSegmentIndex + 1 ∧
      (wal.Write envOk data msize).2.1.segmentSizeOnDisk = 16 ∧
      (wal.Write envOk data msize).2.1.buffered = 4 + msize) ∧
    (wal.segmentSizeOnDisk + wal.buffered + msize < wal.maxFileSize →
      (wal.Write envOk data msize).2.1.currentSegmentIndex =
        wal.currentSegmentIndex ∧
      (wal.Write envOk data msize).2.1.segmentSizeOnDisk +
          (wal.Write envOk data msize).2.1.buffered =
        wal.segmentSizeOnDisk + wal.buffered + 4 + msize ∧
      (wal.Write envOk data msize).2.1.segmentSizeOnDisk +
          (wal.Write envOk data msize).2.1.buffered ≤
        wal.maxFileSize + 3) := by
  by_cases hc : wal.maxFileSize ≤ wal.segmentSizeOnDisk + wal.buffered + msize
  · have hrot := rotateLog_envOk
      { wal with lastLogSequenceNo := wal.lastLogSequenceNo + 1 }
    unfold Wal.Write Wal.writeDataLogToBuffer Wal._rotateLog
    simp only [envOk] at hrot ⊢
    simp only [Bool.false_eq_true, if_false, hc, if_true]
    rcases hres : ({ wal with lastLogSequenceNo :=
        wal.lastLogSequenceNo + 1 } : Wal).rotateLog
        { statFails := false, flushFails := false, fsyncFails := false,
          rotateFails := false } with ⟨r, w2⟩
    rw [hres] at hrot
    rcases hrot with ⟨h1, h2, h3, h4, h5, h6, h7, h8⟩
    subst h1
    refine ⟨rfl, fun _ => ⟨by simpa using h2, by simpa using h3, ?_⟩,
      fun hlt => absurd hc (by omega)⟩
    have h4a : w2.buffered = 0 := h4
    simp [h4a]
  · unfold Wal.Write Wal.writeDataLogToBuffer Wal._rotateLog
    simp only [envOk, Bool.false_eq_true, if_false]
    rw [if_neg (by simpa using hc)]
    exact ⟨rfl, fun h => absurd h hc, fun _ => ⟨rfl, by simp; omega, by simp; omega⟩⟩

/-- Witness for C3's amended theorem: the rotating branch at `msize = 90`
and the non-rotating branch at `msize = 81`, both from `walA`. -/
theorem C3_amended_rotation_check_witness :
    ((walA.Write envOk [] 90).2.1.currentSegmentIndex =
        walA.currentSegmentIndex + 1 ∧
      (walA.Write envOk [] 90).2.1.segmentSizeOnDisk = 16 ∧
      (walA.Write envOk [] 90).2.1.buffered = 4 + 90) ∧
    ((walA.Write envOk [] 81).2.1.currentSegmentIndex =
        walA.currentSegmentIndex ∧
      (walA.Write envOk [] 81).2.1.segmentSizeOnDisk +
          (walA.Write envOk [] 81).2.1.buffered =
        walA.segmentSizeOnDisk + walA.buffered + 4 + 81 ∧
      (walA.Write envOk [] 81).2.1.segmentSizeOnDisk +
          (walA.Write envOk [] 81).2.1.buffered ≤ walA.maxFileSize + 3) :=
  ⟨(C3_amended_rotation_check walA [] 90).2.1 (by decide),
   (C3_amended_rotation_check walA [] 81).2.2 (by decide)⟩

/-- Rotation fails after the flush: `Stat` succeeds, `Sync(false)` succeeds,
but closing/creating the segment fails. -/
def envRotFail : Env :=
  { statFails := false, flushFails := false, fsyncFails := false,
    rotateFails := true }

theorem rotateLog_envRotFail (wal : Wal) :
    wal.rotateLog envRotFail =
      (.error .io,
       { wal with segmentSizeOnDisk := wal.segmentSizeOnDisk + wal.buffered,
                  buffered := 0 }) := by
  unfold Wal.rotateLog Wal.flushAndFsync
  simp [envRotFail]

theorem Write_envOk (wal : Wal) (data : List Nat) (msize : Nat) :
    (wal.Write envOk data msize).1 = .ok () ∧
    (wal.Write envOk data msize).2.1.lastLogSequenceNo =
      wal.lastLogSequenceNo + 1 ∧
    (wal.Write envOk data msize).2.2 =
      [writeRecord (wal.lastLogSequenceNo + 1) data] := by
  unfold Wal.Write Wal.writeDataLogToBuffer Wal._rotateLog
  by_cases hc : wal.maxFileSize ≤ wal.segmentSizeOnDisk + wal.buffered + msize
  · have hrot := rotateLog_envOk
      { wal with lastLogSequenceNo := wal.lastLogSequenceNo + 1 }
    rcases hres : ({ wal with lastLogSequenceNo :=
        wal.lastLogSequenceNo + 1 } : Wal).rotateLog envOk with ⟨r, w2⟩
    rw [hres] at hrot
    obtain ⟨h1, -, -, -, -, -, h7, -⟩ := hrot
    subst h1
    have h7a : w2.lastLogSequenceNo = wal.lastLogSequenceNo + 1 := h7
    simp [show envOk.statFails = false from rfl, hc, hres, h7a]
  · simp [show envOk.statFails = false from rfl, hc]

/-- C9: when rotation fails inside an `Append`, the `Append` returns the
error, the already-incremented LSN counter is kept (no rollback), the record
is never staged, and the next successful `Append` stages a record with LSN
two above the pre-failure counter — leaving the failed LSN as a gap. -/
theorem C9_rotation_failure_keeps_lsn (wal : Wal) (d1 d2 : List Nat)
    (m1 m2 : Nat)
    (htrig : wal.maxFileSize ≤ wal.segmentSizeOnDisk + wal.buffered + m1) :
    (wal.Write envRotFail d1 m1).1 = .error .io ∧
    (wal.Write envRotFail d1 m1).2.1.lastLogSequenceNo =
      wal.lastLogSequenceNo + 1 ∧
    (wal.Write envRotFail d1 m1).2.2 = [] ∧
    ((wal.Write envRotFail d1 m1).2.1.Write envOk d2 m2).1 = .ok () ∧
    ((wal.Write envRotFail d1 m1).2.1.Write envOk d2 m2).2.2 =
      [writeRecord (wal.lastLogSequenceNo + 2) d2] := by
  have hfail : wal.Write envRotFail d1 m1 =
      (.error .io,
       { wal with lastLogSequenceNo := wal.lastLogSequenceNo + 1,
                  segmentSizeOnDisk := wal.segmentSizeOnDisk + wal.buffered,
                  buffered := 0 }, []) := by
    unfold Wal.Write Wal.writeDataLogToBuffer Wal._rotateLog
    simp [show envRotFail.statFails = false from rfl, htrig,
      rotateLog_envRotFail]
  rw [hfail]
  have hnext := Write_envOk
    { wal with lastLogSequenceNo := wal.lastLogSequenceNo + 1,
               segmentSizeOnDisk := wal.segmentSizeOnDisk + wal.buffered,
               buffered := 0 } d2 m2
  exact ⟨rfl, rfl, rfl, hnext.1, hnext.2.2⟩

/-- Witness for C9 from `walA` with an oversized first record. -/
theorem C9_rotation_failure_keeps_lsn_witness :
    (walA.Write envRotFail [3] 100).1 = .error .io ∧
    (walA.Write envRotFail [3] 100).2.1.lastLogSequenceNo =
      walA.lastLogSequenceNo + 1 ∧
    (walA.Write envRotFail [3] 100).2.2 = [] ∧
    ((walA.Write envRotFail [3] 100).2.1.Write envOk [4] 5).1 = .ok () ∧
    ((walA.Write envRotFail [3] 100).2.1.Write envOk [4] 5).2.2 =
      [writeRecord (walA.lastLogSequenceNo + 2) [4]] :=
  C9_rotation_failure_keeps_lsn walA [3] [4] 100 5 (by decide)

/-- Checkpoint staging fails (the `Stat` inside its buffer write errors)
while flush and fsync succeed. -/
def envCkptStageFail : Env :=
  { statFails := true, flushFails := false, fsyncFails := false,
    rotateFails := false }

/-- C10: when staging the `CHECKPOINT` record fails during a checkpointed
sync, the failure is swallowed — `Sync(true)` and `Close` still return
success — while `lastLogSequenceNo` and `lastCheckpointLSN` keep their
incremented values and no checkpoint record is staged. -/
theorem C10_checkpoint_failure_swallowed (wal : Wal) (m1 m2 : Nat)
    (htf : wal.triggerFSync = true) :
    (wal.Sync envCkptStageFail m1 true).1 = .ok () ∧
    (wal.Sync envCkptStageFail m1 true).2.1.lastLogSequenceNo =
      wal.lastLogSequenceNo + 1 ∧
    (wal.Sync envCkptStageFail m1 true).2.1.lastCheckpointLSN =
      wal.lastLogSequenceNo + 1 ∧
    (wal.Sync envCkptStageFail m1 true).2.2 = [] ∧
    (wal.Close envCkptStageFail m2).1 = .ok () := by
  unfold Wal.Close Wal.Sync Wal.checkpoint Wal.writeDataLogToBuffer
    Wal._rotateLog Wal.flushAndFsync
  simp [envCkptStageFail, htf]

/-- Witness for C10 at `walA` (which has `triggerFSync = true`). -/
theorem C10_checkpoint_failure_swallowed_witness :
    (walA.Sync envCkptStageFail 2 true).1 = .ok () ∧
    (walA.Sync envCkptStageFail 2 true).2.1.lastLogSequenceNo =
      walA.lastLogSequenceNo + 1 ∧
    (walA.Sync envCkptStageFail 2 true).2.1.lastCheckpointLSN =
      walA.lastLogSequenceNo + 1 ∧
    (walA.Sync envCkptStageFail 2 true).2.2 = [] ∧
    (walA.Close envCkptStageFail 2).1 = .ok () :=
  C10_checkpoint_failure_swallowed walA 2 2 (by decide)

theorem findOldest_go (files : List Nat) : ∀ m : Nat,
    ∃ m2, files.foldl
        (fun best i =>
          match best with
          | none => some i
          | some m => if i < m then some i else some m)
        (some m) = some m2 ∧
      (m2 = m ∨ m2 ∈ files) ∧ m2 ≤ m ∧ ∀ i ∈ files, m2 ≤ i := by
  induction files with
  | nil => exact fun m => ⟨m, rfl, Or.inl rfl, le_refl m, by simp⟩
  | cons a rest ih =>
    intro m
    obtain ⟨m2, heq, hmem, hle, hall⟩ := ih (if a < m then a else m)
    have hstep : (if a < m then some a else some m) =
        some (if a < m then a else m) := by
      split <;> rfl
    refine ⟨m2, by simpa [hstep] using heq, ?_, ?_, ?_⟩
    · rcases hmem with h | h
      · by_cases hc : a < m
        · simp [hc] at h
          exact Or.inr (by simp [h])
        · simp [hc] at h
          exact Or.inl h
      · exact Or.inr (by simp [h])
    · split at hle <;> omega
    · intro i hi
      rcases List.mem_cons.mp hi with h | h
      · subst h
        split at hle <;> omega
      · exact hall i h

/-- On a non-empty file list the Go loop returns the smallest index. -/
theorem findOldest_spec (files : List Nat) (hne : files ≠ []) :
    ∃ m, findOldestSegmentFile files = some m ∧ m ∈ files ∧
      ∀ i ∈ files, m ≤ i := by
  match files, hne with
  | a :: rest, _ =>
    obtain ⟨m2, heq, hmem, hle, hall⟩ := findOldest_go rest a
    refine ⟨m2, by simpa [findOldestSegmentFile] using heq, ?_, ?_⟩
    · rcases hmem with h | h
      · exact h ▸ List.mem_cons_self a rest
      · exact List.mem_cons_of_mem a h
    · intro i hi
      rcases List.mem_cons.mp hi with h | h
      · omega
      · exact hall i h

theorem findOldest_nil_iff (files : List Nat) :
    findOldestSegmentFile files = none ↔ files = [] := by
  constructor
  · intro h
    by_contra hne
    obtain ⟨m, hm, -, -⟩ := findOldest_spec files hne
    rw [h] at hm
    cases hm
  · intro h
    subst h
    rfl

theorem rotateLog_retention (wal : Wal) (m : Nat)
    (hthr : wal.maxSegments ≤ wal.currentSegmentIndex + 1)
    (hm : findOldestSegmentFile wal.activeDir = some m) :
    (wal.rotateLog envOk).2.activeDir =
      addFile (wal.activeDir.erase m) (wal.currentSegmentIndex + 1) ∧
    (wal.rotateLog envOk).2.archivalDir = wal.archivalDir ++ [m] := by
  unfold Wal.rotateLog Wal.flushAndFsync Wal.moveOldestSegmentToArchival
  simp [show envOk.flushFails = false from rfl,
    show envOk.fsyncFails = false from rfl,
    show envOk.rotateFails = false from rfl, hthr, hm]

theorem rotateLog_retention_empty (wal : Wal)
    (hthr : wal.maxSegments ≤ wal.currentSegmentIndex + 1)
    (hm : findOldestSegmentFile wal.activeDir = none) :
    (wal.rotateLog envOk).2.activeDir =
      addFile wal.activeDir (wal.currentSegmentIndex + 1) ∧
    (wal.rotateLog envOk).2.archivalDir = wal.archivalDir := by
  unfold Wal.rotateLog Wal.flushAndFsync Wal.moveOldestSegmentToArchival
  simp [show envOk.flushFails = false from rfl,
    show envOk.fsyncFails = false from rfl,
    show envOk.rotateFails = false from rfl, hthr, hm]

/-- C5: a successful rotation that crosses the retention threshold
(`new index ≥ max_segments`) leaves at most `max_segments` segment files in
the log directory and moves the oldest-indexed file — index preserved — into
the archival directory.  The hypotheses are the steady-state facts the
appender maintains: at least one retained segment is configured, the
directory held at most `max_segments` distinct files, and no file outran the
active index. -/
theorem C5_retention_bound (wal : Wal)
    (hms : 1 ≤ wal.maxSegments)
    (hlen : wal.activeDir.length ≤ wal.maxSegments)
    (hnodup : wal.activeDir.Nodup)
    (hidx : ∀ i ∈ wal.activeDir, i ≤ wal.currentSegmentIndex)
    (hthr : wal.maxSegments ≤ wal.currentSegmentIndex + 1) :
    (wal.rotateLog envOk).1 = .ok () ∧
    (wal.rotateLog envOk).2.activeDir.length ≤ wal.maxSegments ∧
    (wal.activeDir ≠ [] →
      ∃ m, findOldestSegmentFile wal.activeDir = some m ∧
        m ∈ wal.activeDir ∧ (∀ i ∈ wal.activeDir, m ≤ i) ∧
        (wal.rotateLog envOk).2.archivalDir = wal.archivalDir ++ [m] ∧
        m ∉ (wal.rotateLog envOk).2.activeDir) := by
  refine ⟨(rotateLog_envOk wal).1, ?_, ?_⟩
  · by_cases hne : wal.activeDir = []
    · obtain ⟨ha, -⟩ := rotateLog_retention_empty wal hthr
        (by rw [hne]; rfl)
      rw [ha, hne]
      simpa [addFile] using hms
    · obtain ⟨m, hm, hmem, -⟩ := findOldest_spec _ hne
      obtain ⟨ha, -⟩ := rotateLog_retention wal m hthr hm
      rw [ha]
      have hni : wal.currentSegmentIndex + 1 ∉ wal.activeDir.erase m := by
        intro hcon
        have := hidx _ (List.mem_of_mem_erase hcon)
        omega
      have hle : (wal.activeDir.erase m).length = wal.activeDir.length - 1 :=
        List.length_erase_of_mem hmem
      have hpos : 1 ≤ wal.activeDir.length := by
        cases h : wal.activeDir with
        | nil => exact absurd h hne
        | cons a l => simp [h]
      simp only [addFile, if_neg hni, List.length_cons]
      omega
  · intro hne
    obtain ⟨m, hm, hmem, hmin⟩ := findOldest_spec _ hne
    obtain ⟨ha, har⟩ := rotateLog_retention wal m hthr hm
    refine ⟨m, hm, hmem, hmin, har, ?_⟩
    rw [ha]
    have hmlt : m ≤ wal.currentSegmentIndex := hidx m hmem
    have hni : wal.currentSegmentIndex + 1 ∉ wal.activeDir.erase m := by
      intro hcon
      have := hidx _ (List.mem_of_mem_erase hcon)
      omega
    simp only [addFile, if_neg hni, List.mem_cons]
    rintro (h | h)
    · omega
    · exact absurd ((List.Nodup.mem_erase_iff hnodup).mp h).1 (by simp)

/-- A steady-state log directory holding `max_segments` files, about to
rotate past the threshold. -/
def walB : Wal :=
  { lastLogSequenceNo := 9, lastCheckpointLSN := 0, currentSegmentIndex := 2,
    segmentSizeOnDisk := 90, buffered := 10, activeDir := [0, 1, 2],
    archivalDir := [], maxFileSize := 100, maxSegments := 3,
    triggerFSync := false }

/-- Witness for C5 at `walB`: rotation to index 3 archives segment 0. -/
theorem C5_retention_bound_witness :
    (walB.rotateLog envOk).1 = .ok () ∧
    (walB.rotateLog envOk).2.activeDir.length ≤ walB.maxSegments ∧
    (walB.activeDir ≠ [] →
      ∃ m, findOldestSegmentFile walB.activeDir = some m ∧
        m ∈ walB.activeDir ∧ (∀ i ∈ walB.activeDir, m ≤ i) ∧
        (walB.rotateLog envOk).2.archivalDir = walB.archivalDir ++ [m] ∧
        m ∉ (walB.rotateLog envOk).2.activeDir) :=
  C5_retention_bound walB (by decide) (by decide) (by decide)
    (by decide) (by decide)

/-! ## LSN accounting lemmas -/

theorem flushAndFsync_counters (wal : Wal) (env : Env) :
    (wal.flushAndFsync env).2.lastLogSequenceNo = wal.lastLogSequenceNo ∧
    (wal.flushAndFsync env).2.lastCheckpointLSN = wal.lastCheckpointLSN := by
  unfold Wal.flushAndFsync
  by_cases h1 : env.flushFails = true <;>
    by_cases h2 : (wal.triggerFSync && env.fsyncFails) = true <;>
      simp [h1, h2]

theorem rotateLog_counters (wal : Wal) (env : Env) :
    (wal.rotateLog env).2.lastLogSequenceNo = wal.lastLogSequenceNo ∧
    (wal.rotateLog env).2.lastCheckpointLSN = wal.lastCheckpointLSN := by
  have hm : ∀ w : Wal,
      w.moveOldestSegmentToArchival.lastLogSequenceNo = w.lastLogSequenceNo ∧
      w.moveOldestSegmentToArchival.lastCheckpointLSN =
        w.lastCheckpointLSN := by
    intro w
    unfold Wal.moveOldestSegmentToArchival
    cases h : findOldestSegmentFile w.activeDir <;> simp [h]
  unfold Wal.rotateLog
  rcases hf : wal.flushAndFsync env with ⟨r, w1⟩
  have hcc := flushAndFsync_counters wal env
  rw [hf] at hcc
  have hc1 : w1.lastLogSequenceNo = wal.lastLogSequenceNo := hcc.1
  have hc2 : w1.lastCheckpointLSN = wal.lastCheckpointLSN := hcc.2
  cases r with
  | error e => exact ⟨hc1, hc2⟩
  | ok u =>
    by_cases h3 : env.rotateFails = true
    · simp [h3, hc1, hc2]
    · by_cases h4 : w1.maxSegments ≤ w1.currentSegmentIndex + 1
      · have hmA : ∀ w : Wal,
            w.moveOldestSegmentToArchival.lastLogSequenceNo =
              w.lastLogSequenceNo := fun w => (hm w).1
        have hmB : ∀ w : Wal,
            w.moveOldestSegmentToArchival.lastCheckpointLSN =
              w.lastCheckpointLSN := fun w => (hm w).2
        simp [h3, h4, hmA, hmB, hc1, hc2]
      · simp [h3, h4, hc1, hc2]

theorem _rotateLog_counters (wal : Wal) (env : Env) (msize : Nat) :
    (wal._rotateLog env msize).2.lastLogSequenceNo =
      wal.lastLogSequenceNo ∧
    (wal._rotateLog env msize).2.lastCheckpointLSN =
      wal.lastCheckpointLSN := by
  unfold Wal._rotateLog
  by_cases h1 : env.statFails = true
  · simp [h1]
  · by_cases h2 : wal.maxFileSize ≤
        wal.segmentSizeOnDisk + wal.buffered + msize
    · simpa [h1, h2] using rotateLog_counters wal env
    · simp [h1, h2]

theorem writeDataLogToBuffer_counters (wal : Wal) (env : Env)
    (log : Wal_Data_Log) (msize : Nat) :
    (wal.writeDataLogToBuffer env log msize).2.1.lastLogSequenceNo =
      wal.lastLogSequenceNo ∧
    (wal.writeDataLogToBuffer env log msize).2.1.lastCheckpointLSN =
      wal.lastCheckpointLSN ∧
    ((wal.writeDataLogToBuffer env log msize).2.2 = [] ∨
      (wal.writeDataLogToBuffer env log msize).2.2 = [log]) := by
  unfold Wal.writeDataLogToBuffer
  rcases hr : wal._rotateLog env msize with ⟨r, w1⟩
  have hcc := _rotateLog_counters wal env msize
  rw [hr] at hcc
  have hc1 : w1.lastLogSequenceNo = wal.lastLogSequenceNo := hcc.1
  have hc2 : w1.lastCheckpointLSN = wal.lastCheckpointLSN := hcc.2
  cases r with
  | error e => exact ⟨hc1, hc2, Or.inl rfl⟩
  | ok u => exact ⟨hc1, hc2, Or.inr rfl⟩

theorem Write_lsn (wal : Wal) (env : Env) (data : List Nat) (msize : Nat) :
    (wal.Write env data msize).2.1.lastLogSequenceNo =
      wal.lastLogSequenceNo + 1 ∧
    ∀ r ∈ (wal.Write env data msize).2.2,
      r.logSequenceNumber = wal.lastLogSequenceNo + 1 := by
  have hcc := writeDataLogToBuffer_counters
    { wal with lastLogSequenceNo := wal.lastLogSequenceNo + 1 } env
    (writeRecord (wal.lastLogSequenceNo + 1) data) msize
  refine ⟨hcc.1, ?_⟩
  intro r hr
  have hsc : (wal.Write env data msize).2.2 = [] ∨
      (wal.Write env data msize).2.2 =
        [writeRecord (wal.lastLogSequenceNo + 1) data] := hcc.2.2
  rcases hsc with h | h
  · rw [h] at hr
    cases hr
  · rw [h] at hr
    rcases List.mem_singleton.mp hr with rfl
    rfl

theorem Write_staged_cases (wal : Wal) (env : Env) (data : List Nat)
    (msize : Nat) :
    (wal.Write env data msize).2.2 = [] ∨
    (wal.Write env data msize).2.2 =
      [writeRecord (wal.lastLogSequenceNo + 1) data] :=
  (writeDataLogToBuffer_counters
    { wal with lastLogSequenceNo := wal.lastLogSequenceNo + 1 } env
    (writeRecord (wal.lastLogSequenceNo + 1) data) msize).2.2

theorem checkpoint_counters (wal : Wal) (env : Env) (msize : Nat) :
    (wal.checkpoint env msize).1.lastLogSequenceNo =
      wal.lastLogSequenceNo + 1 ∧
    (wal.checkpoint env msize).1.lastCheckpointLSN =
      wal.lastLogSequenceNo + 1 := by
  have hcc := writeDataLogToBuffer_counters
    { wal with lastLogSequenceNo := wal.lastLogSequenceNo + 1,
               lastCheckpointLSN := wal.lastLogSequenceNo + 1 } env
    (checkpointRecord (wal.lastLogSequenceNo + 1)) msize
  unfold Wal.checkpoint
  dsimp only
  rcases hw : Wal.writeDataLogToBuffer
      { wal with lastLogSequenceNo := wal.lastLogSequenceNo + 1,
                 lastCheckpointLSN := wal.lastLogSequenceNo + 1 } env
      (checkpointRecord (wal.lastLogSequenceNo + 1)) msize
    with ⟨r, w1, staged⟩
  rw [hw] at hcc
  have hc1 : w1.lastLogSequenceNo = wal.lastLogSequenceNo + 1 := hcc.1
  have hc2 : w1.lastCheckpointLSN = wal.lastLogSequenceNo + 1 := hcc.2.1
  cases r with
  | error e => exact ⟨hc1, hc2⟩
  | ok u => exact ⟨hc1, hc2⟩

theorem checkpoint_staged_cases (wal : Wal) (env : Env) (msize : Nat) :
    (wal.checkpoint env msize).2 = [] ∨
    (wal.checkpoint env msize).2 =
      [checkpointRecord (wal.lastLogSequenceNo + 1)] := by
  have hcc := (writeDataLogToBuffer_counters
    { wal with lastLogSequenceNo := wal.lastLogSequenceNo + 1,
               lastCheckpointLSN := wal.lastLogSequenceNo + 1 } env
    (checkpointRecord (wal.lastLogSequenceNo + 1)) msize).2.2
  unfold Wal.checkpoint
  dsimp only
  rcases hw : Wal.writeDataLogToBuffer
      { wal with lastLogSequenceNo := wal.lastLogSequenceNo + 1,
                 lastCheckpointLSN := wal.lastLogSequenceNo + 1 } env
      (checkpointRecord (wal.lastLogSequenceNo + 1)) msize
    with ⟨r, w1, staged⟩
  rw [hw] at hcc
  have hs : staged = [] ∨
      staged = [checkpointRecord (wal.lastLogSequenceNo + 1)] := hcc
  cases r with
  | error e => exact Or.inl rfl
  | ok u => exact hs

theorem checkpoint_lsn (wal : Wal) (env : Env) (msize : Nat) :
    (wal.checkpoint env msize).1.lastLogSequenceNo =
      wal.lastLogSequenceNo + 1 ∧
    (wal.checkpoint env msize).1.lastCheckpointLSN =
      wal.lastLogSequenceNo + 1 ∧
    ∀ r ∈ (wal.checkpoint env msize).2,
      r.logSequenceNumber = wal.lastLogSequenceNo + 1 := by
  refine ⟨(checkpoint_counters wal env msize).1,
    (checkpoint_counters wal env msize).2, ?_⟩
  intro r hr
  rcases checkpoint_staged_cases wal env msize with h | h
  · rw [h] at hr
    cases hr
  · rw [h] at hr
    rcases List.mem_singleton.mp hr with rfl
    rfl

theorem Sync_cases (wal : Wal) (env : Env) (msize : Nat) (b : Bool) :
    (∃ e w1, wal.flushAndFsync env = (.error e, w1) ∧
      wal.Sync env msize b = (.error e, w1, [])) ∨
    (∃ u w1, wal.flushAndFsync env = (.ok u, w1) ∧
      (((w1.triggerFSync && b) = true ∧
        wal.Sync env msize b =
          (.ok (), (w1.checkpoint env msize).1,
            (w1.checkpoint env msize).2)) ∨
       ((w1.triggerFSync && b) = false ∧
        wal.Sync env msize b = (.ok (), w1, [])))) := by
  rcases hf : wal.flushAndFsync env with ⟨r, w1⟩
  cases r with
  | error e =>
    refine Or.inl ⟨e, w1, rfl, ?_⟩
    unfold Wal.Sync
    rw [hf]
  | ok u =>
    by_cases hb : (w1.triggerFSync && b) = true
    · refine Or.inr ⟨u, w1, rfl, Or.inl ⟨hb, ?_⟩⟩
      unfold Wal.Sync
      rw [hf]
      simp [hb]
    · have hb2 : (w1.triggerFSync && b) = false := by
        simpa using hb
      refine Or.inr ⟨u, w1, rfl, Or.inr ⟨hb2, ?_⟩⟩
      unfold Wal.Sync
      rw [hf]
      simp [hb2]

theorem step_bounds (wal : Wal) (env : Env) (op : Op) :
    wal.lastLogSequenceNo ≤ (wal.step env op).1.lastLogSequenceNo ∧
    (∀ r ∈ (wal.step env op).2,
      wal.lastLogSequenceNo < r.logSequenceNumber ∧
      r.logSequenceNumber ≤ (wal.step env op).1.lastLogSequenceNo) ∧
    (wal.step env op).2.length ≤ 1 := by
  cases op with
  | write data msize =>
    have hw := Write_lsn wal env data msize
    have hsc := Write_staged_cases wal env data msize
    have hs1 : (wal.step env (.write data msize)).1 =
        (wal.Write env data msize).2.1 := rfl
    have hs2 : (wal.step env (.write data msize)).2 =
        (wal.Write env data msize).2.2 := rfl
    rw [hs1, hs2]
    refine ⟨by omega, ?_, ?_⟩
    · intro r hr
      have := hw.2 r hr
      omega
    · rcases hsc with h | h <;> rw [h] <;> simp
  | sync b msize =>
    have hs1 : (wal.step env (.sync b msize)).1 =
        (wal.Sync env msize b).2.1 := rfl
    have hs2 : (wal.step env (.sync b msize)).2 =
        (wal.Sync env msize b).2.2 := rfl
    rw [hs1, hs2]
    have hff := flushAndFsync_counters wal env
    rcases Sync_cases wal env msize b with
      ⟨e, w1, hf, hs⟩ | ⟨u, w1, hf, ⟨hb, hs⟩ | ⟨hb, hs⟩⟩
    · rw [hf] at hff
      have hc1 : w1.lastLogSequenceNo = wal.lastLogSequenceNo := hff.1
      rw [hs]
      dsimp only
      refine ⟨by omega, ?_, by simp⟩
      intro r hr
      cases hr
    · rw [hf] at hff
      have hc1 : w1.lastLogSequenceNo = wal.lastLogSequenceNo := hff.1
      have hck := checkpoint_lsn w1 env msize
      have hsc := checkpoint_staged_cases w1 env msize
      rw [hs]
      dsimp only
      refine ⟨?_, ?_, ?_⟩
      · have h1 := hck.1
        omega
      · intro r hr
        have h1 := hck.2.2 r hr
        have h2 := hck.1
        omega
      · rcases hsc with h | h <;> rw [h] <;> simp
    · rw [hf] at hff
      have hc1 : w1.lastLogSequenceNo = wal.lastLogSequenceNo := hff.1
      rw [hs]
      dsimp only
      refine ⟨by omega, ?_, by simp⟩
      intro r hr
      cases hr

theorem run_bounds (wal : Wal) (ops : List (Env × Op)) :
    wal.lastLogSequenceNo ≤ (wal.run ops).1.lastLogSequenceNo ∧
    ∀ r ∈ (wal.run ops).2,
      wal.lastLogSequenceNo < r.logSequenceNumber ∧
      r.logSequenceNumber ≤ (wal.run ops).1.lastLogSequenceNo := by
  induction ops generalizing wal with
  | nil =>
    refine ⟨le_refl _, ?_⟩
    intro r hr
    cases hr
  | cons p rest ih =>
    rcases p with ⟨env, op⟩
    have hstep := step_bounds wal env op
    have hrest := ih (wal.step env op).1
    simp only [Wal.run]
    refine ⟨le_trans hstep.1 hrest.1, ?_⟩
    intro r hr
    rcases List.mem_append.mp hr with h | h
    · have h1 := hstep.2.1 r h
      have h2 := hrest.1
      exact ⟨h1.1, le_trans h1.2 h2⟩
    · have h1 := hrest.2 r h
      have h2 := hstep.1
      exact ⟨lt_of_le_of_lt h2 h1.1, h1.2⟩

theorem run_pairwise (wal : Wal) (ops : List (Env × Op)) :
    List.Pairwise
      (fun a b : Wal_Data_Log =>
        a.logSequenceNumber < b.logSequenceNumber)
      (wal.run ops).2 := by
  induction ops generalizing wal with
  | nil => simp [Wal.run]
  | cons p rest ih =>
    rcases p with ⟨env, op⟩
    have hstep := step_bounds wal env op
    have hrest := run_bounds (wal.step env op).1 rest
    simp only [Wal.run]
    rw [List.pairwise_append]
    refine ⟨?_, ih _, ?_⟩
    · rcases hlen : (wal.step env op).2 with _ | ⟨a, tl⟩
      · exact List.Pairwise.nil
      · rw [hlen] at hstep
        have htl : tl = [] := by
          have := hstep.2.2
          simpa using this
        subst htl
        simp
    · intro a ha b hb
      have h1 := (hstep.2.1 a ha).2
      have h2 := (hrest.2 b hb).1
      omega

/-- C2: each `Append` sets the record's LSN to the previous counter plus one
(the counter itself advancing by one even on failure), each checkpoint
emission likewise consumes one LSN, and over any operation sequence the
staged records carry strictly increasing LSNs. -/
theorem C2_lsn_monotonic :
    (∀ (wal : Wal) (env : Env) (data : List Nat) (msize : Nat),
      (wal.Write env data msize).2.1.lastLogSequenceNo =
        wal.lastLogSequenceNo + 1 ∧
      ∀ r ∈ (wal.Write env data msize).2.2,
        r.logSequenceNumber = wal.lastLogSequenceNo + 1) ∧
    (∀ (wal : Wal) (env : Env) (msize : Nat),
      (wal.checkpoint env msize).1.lastLogSequenceNo =
        wal.lastLogSequenceNo + 1 ∧
      (wal.checkpoint env msize).1.lastCheckpointLSN =
        wal.lastLogSequenceNo + 1 ∧
      ∀ r ∈ (wal.checkpoint env msize).2,
        r.logSequenceNumber = wal.lastLogSequenceNo + 1) ∧
    (∀ (wal : Wal) (ops : List (Env × Op)),
      List.Pairwise
        (fun a b : Wal_Data_Log =>
          a.logSequenceNumber < b.logSequenceNumber)
        (wal.run ops).2) :=
  ⟨Write_lsn, checkpoint_lsn, run_pairwise⟩

/-- Witness for C2 at a concrete state and operation list. -/
theorem C2_lsn_monotonic_witness :
    (walA.Write envOk [7] 3).2.1.lastLogSequenceNo =
      walA.lastLogSequenceNo + 1 ∧
    (walA.checkpoint envOk 2).1.lastLogSequenceNo =
      walA.lastLogSequenceNo + 1 ∧
    List.Pairwise
      (fun a b : Wal_Data_Log =>
        a.logSequenceNumber < b.logSequenceNumber)
      (walA.run [(envOk, .write [7] 3), (envOk, .sync true 2)]).2 :=
  ⟨(C2_lsn_monotonic.1 walA envOk [7] 3).1,
   (C2_lsn_monotonic.2.1 walA envOk 2).1,
   C2_lsn_monotonic.2.2 walA [(envOk, .write [7] 3), (envOk, .sync true 2)]⟩


/-- C4: `Wal.Write` stamps `crc = CRC32-IEEE(data || low_byte(lsn))`,
`Wal.checkpoint` stamps `crc = CRC32-IEEE(low_byte(lsn))` on an empty-data
record, and `ValidDataIntegrity` recomputes exactly
`CRC32-IEEE(data || low_byte(lsn))`, so both produced record shapes verify. -/
theorem C4_crc_domain (lsn : Nat) (data : List Nat) :
    (writeRecord lsn data).crc = crc32 (data ++ [lowByte lsn]) ∧
    (checkpointRecord lsn).crc = crc32 [lowByte lsn] ∧
    (checkpointRecord lsn).data = [] ∧
    (∀ r : Wal_Data_Log, validDataIntegrity r = true ↔
      r.crc = crc32 (r.data ++ [lowByte r.logSequenceNumber])) ∧
    validDataIntegrity (writeRecord lsn data) = true ∧
    validDataIntegrity (checkpointRecord lsn) = true := by
  refine ⟨rfl, rfl, rfl, ?_, ?_, ?_⟩
  · intro r
    simp [validDataIntegrity]
  · simp [validDataIntegrity, writeRecord]
  · simp [validDataIntegrity, checkpointRecord]

/-! ## Initial LSN recovery (C6) -/

theorem getLast_cons_or {α : Type} :
    ∀ (l : List α) (r : α) (acc : Option α),
      ((r :: l).getLast?).or acc = (l.getLast?).or (some r) := by
  intro l
  induction l with
  | nil =>
    intro r acc
    simp
  | cons x xs ih =>
    intro r acc
    rw [List.getLast?_cons_cons, ih x acc, ih x (some r)]

theorem getLastAux_clean :
    ∀ (es : List Entry) (acc : Option Wal_Data_Log),
      cleanScan es = true →
      getLastLogSequenceNoAux acc es =
        .ok (((scannedFrames es).getLast?).or acc) := by
  intro es
  induction es with
  | nil =>
    intro acc h
    simp [getLastLogSequenceNoAux, scannedFrames]
  | cons e rest ih =>
    intro acc h
    cases e with
    | padding => simp [getLastLogSequenceNoAux, scannedFrames]
    | corrupt => simp [cleanScan] at h
    | framed r =>
      rw [cleanScan, Bool.and_eq_true] at h
      have hv : validDataIntegrity r = true := h.1
      have hrest : cleanScan rest = true := h.2
      have hstep : getLastLogSequenceNoAux acc (.framed r :: rest) =
          getLastLogSequenceNoAux (some r) rest := by
        rw [getLastLogSequenceNoAux, if_pos hv]
      rw [hstep, ih (some r) hrest]
      have hsf : scannedFrames (.framed r :: rest) =
          r :: scannedFrames rest := rfl
      rw [hsf, getLast_cons_or]

theorem getLastAux_fail :
    ∀ (es : List Entry) (acc : Option Wal_Data_Log),
      cleanScan es = false →
      ∃ err, getLastLogSequenceNoAux acc es = .error err := by
  intro es
  induction es with
  | nil =>
    intro acc h
    simp [cleanScan] at h
  | cons e rest ih =>
    intro acc h
    cases e with
    | padding => simp [cleanScan] at h
    | corrupt => exact ⟨.decodeFailure, rfl⟩
    | framed r =>
      by_cases hv : validDataIntegrity r = true
      · rw [cleanScan, hv] at h
        have hrest : cleanScan rest = false := by simpa using h
        obtain ⟨err, he⟩ := ih (some r) hrest
        refine ⟨err, ?_⟩
        rw [getLastLogSequenceNoAux, if_pos hv, he]
      · refine ⟨.integrity, ?_⟩
        rw [getLastLogSequenceNoAux, if_neg hv]

/-- C6: initial-LSN recovery scans the active segment's frames forward
(after the 16-byte header, which `Entry` lists abstract away), stops without
error at EOF or a non-positive size prefix, and returns the LSN of the last
successfully decoded record (0 when none); any decode or CRC failure before
the stopping point makes the scan — and hence `NewWal` — fail, so no WAL
handle is returned on a corrupted active tail. -/
theorem C6_initial_lsn_recovery (files : List Nat) (es : List Entry)
    (activeSize maxFileSize maxSegments : Nat) (tf : Bool) :
    (cleanScan es = true →
      getLastLogSequenceNo es = .ok (lastScannedLsn es) ∧
      ∃ w, NewWal files es activeSize maxFileSize maxSegments tf = .ok w ∧
        w.lastLogSequenceNo = lastScannedLsn es) ∧
    (cleanScan es = false →
      ∃ e, getLastLogSequenceNo es = .error e ∧
        NewWal files es activeSize maxFileSize maxSegments tf =
          .error e) := by
  constructor
  · intro h
    have ha := getLastAux_clean es none h
    have hg : getLastLogSequenceNo es = .ok (lastScannedLsn es) := by
      unfold getLastLogSequenceNo
      rw [ha]
      simp [lastScannedLsn, Except.map]
    refine ⟨hg, ?_⟩
    unfold NewWal
    rw [hg]
    exact ⟨_, rfl, rfl⟩
  · intro h
    obtain ⟨err, he⟩ := getLastAux_fail es none h
    have hg : getLastLogSequenceNo es = .error err := by
      unfold getLastLogSequenceNo
      rw [he]
      rfl
    refine ⟨err, hg, ?_⟩
    unfold NewWal
    rw [hg]

/-- A clean active-segment tail: two valid records, a stop marker, and junk
beyond it that the scan never reaches. -/
def esW : List Entry :=
  [.framed (writeRecord 4 [9]), .framed (writeRecord 7 [8]),
   .padding, .corrupt]

/-- Witness for C6: the clean branch at `esW` (last LSN 7) and the failing
branch at a corrupt first frame. -/
theorem C6_initial_lsn_recovery_witness :
    (getLastLogSequenceNo esW = .ok (lastScannedLsn esW) ∧
      ∃ w, NewWal [0] esW 60 100 3 true = .ok w ∧
        w.lastLogSequenceNo = lastScannedLsn esW) ∧
    (∃ e, getLastLogSequenceNo [Entry.corrupt] = .error e ∧
      NewWal [0] [Entry.corrupt] 60 100 3 true = .error e) :=
  ⟨(C6_initial_lsn_recovery [0] esW 60 100 3 true).1 (by decide),
   (C6_initial_lsn_recovery [0] [Entry.corrupt] 60 100 3 true).2
     (by decide)⟩

/-! ## Checkpoint search (C8) -/

theorem readAll_clean :
    ∀ es : List Entry, cleanScan es = true →
      (ReadAllDataLogs es).2 = none := by
  intro es
  induction es with
  | nil => intro h; rfl
  | cons e rest ih =>
    intro h
    cases e with
    | padding => rfl
    | corrupt => simp [cleanScan] at h
    | framed r =>
      rw [cleanScan, Bool.and_eq_true] at h
      rw [ReadAllDataLogs, if_pos h.1]
      exact ih h.2

theorem find_decomp {α : Type} {p : α → Bool} :
    ∀ {l : List α} {x : α}, l.find? p = some x →
      p x = true ∧ ∃ a b, l = a ++ x :: b ∧ ∀ y ∈ a, p y = false := by
  intro l
  induction l with
  | nil => intro x h; cases h
  | cons c cs ih =>
    intro x h
    by_cases hc : p c = true
    · rw [List.find?_cons_of_pos _ hc] at h
      rcases Option.some.inj h with rfl
      exact ⟨hc, [], cs, rfl, by intro y hy; cases hy⟩
    · have hcf : p c = false := by simpa using hc
      rw [List.find?_cons_of_neg _ (by simp [hcf])] at h
      obtain ⟨hp, a, b, hl, ha⟩ := ih h
      refine ⟨hp, c :: a, b, by rw [hl]; rfl, ?_⟩
      intro y hy
      rcases List.mem_cons.mp hy with rfl | hy2
      · exact hcf
      · exact ha y hy2

theorem find_reverse_decomp {α : Type} {p : α → Bool} {l : List α} {x : α}
    (h : l.reverse.find? p = some x) :
    p x = true ∧ ∃ l1 l2, l = l1 ++ x :: l2 ∧ ∀ y ∈ l2, p y = false := by
  obtain ⟨hp, a, b, hl, ha⟩ := find_decomp h
  refine ⟨hp, b.reverse, a.reverse, ?_, ?_⟩
  · have : l.reverse.reverse = (a ++ x :: b).reverse := by rw [hl]
    simpa [List.reverse_append] using this
  · intro y hy
    exact ha y (List.mem_reverse.mp hy)

theorem segScan_cases (store : SegStore) (idx : Nat)
    (fallback : Except Err (Wal_Data_Log × Nat))
    (hclean : cleanSegAt store idx) :
    (segScan store idx fallback = fallback ∧
      segHasCheckpoint store idx = false) ∨
    (∃ ck, segScan store idx fallback = .ok (ck, idx) ∧
      segHasCheckpoint store idx = true ∧
      (segRecords store idx).reverse.find?
        (fun r => r.type == Log_Type.CHECKPOINT) = some ck) := by
  unfold segScan segHasCheckpoint segRecords
  cases hc : (store idx).contents? with
  | none => exact Or.inl ⟨rfl, rfl⟩
  | some es =>
    have hcs : cleanScan es = true := hclean es hc
    have hnone := readAll_clean es hcs
    rcases hra : ReadAllDataLogs es with ⟨recs, oerr⟩
    rw [hra] at hnone
    have hoe : oerr = none := hnone
    subst hoe
    dsimp only
    rw [hra]
    dsimp only
    cases hf : recs.reverse.find?
        (fun r => r.type == Log_Type.CHECKPOINT) with
    | none =>
      refine Or.inl ⟨rfl, ?_⟩
      have hall := List.find?_eq_none.mp hf
      rw [List.any_eq_false]
      intro r hr
      simpa using hall r (List.mem_reverse.mpr hr)
    | some ck =>
      refine Or.inr ⟨ck, rfl, ?_, rfl⟩
      have hmem := List.mem_of_find?_eq_some hf
      have hp := List.find?_some hf
      rw [List.any_eq_true]
      exact ⟨ck, List.mem_reverse.mp hmem, hp⟩

theorem locate_cases (store : SegStore)
    (hclean : ∀ i, cleanSegAt store i) :
    ∀ current,
      (getLastCheckPointLSNWalEntry store current =
          .error .noCheckpoint ∧
        ∀ i, i ≤ current → segHasCheckpoint store i = false) ∨
      (∃ ck seg,
        getLastCheckPointLSNWalEntry store current = .ok (ck, seg) ∧
        seg ≤ current ∧ segHasCheckpoint store seg = true ∧
        (segRecords store seg).reverse.find?
          (fun r => r.type == Log_Type.CHECKPOINT) = some ck ∧
        ∀ j, seg < j → j ≤ current →
          segHasCheckpoint store j = false) := by
  intro current
  induction current with
  | zero =>
    rcases segScan_cases store 0 (.error .noCheckpoint) (hclean 0) with
      ⟨heq, hno⟩ | ⟨ck, heq, hhas, hfind⟩
    · refine Or.inl ⟨heq, ?_⟩
      intro i hi
      have : i = 0 := Nat.le_zero.mp hi
      subst this
      exact hno
    · exact Or.inr ⟨ck, 0, heq, le_refl 0, hhas, hfind,
        fun j hj1 hj2 => absurd (lt_of_lt_of_le hj1 hj2) (lt_irrefl 0)⟩
  | succ n ih =>
    rcases segScan_cases store (n + 1)
        (getLastCheckPointLSNWalEntry store n) (hclean (n + 1)) with
      ⟨heq, hno⟩ | ⟨ck, heq, hhas, hfind⟩
    · rcases ih with ⟨heq2, hall⟩ | ⟨ck, seg, heq2, hle, hhas, hfind, habove⟩
      · refine Or.inl ⟨?_, ?_⟩
        · show segScan store (n + 1)
            (getLastCheckPointLSNWalEntry store n) = _
          rw [heq, heq2]
        · intro i hi
          rcases Nat.lt_or_ge i (n + 1) with h | h
          · exact hall i (by omega)
          · have : i = n + 1 := by omega
            subst this
            exact hno
      · refine Or.inr ⟨ck, seg, ?_, by omega, hhas, hfind, ?_⟩
        · show segScan store (n + 1)
            (getLastCheckPointLSNWalEntry store n) = _
          rw [heq, heq2]
        · intro j hj1 hj2
          rcases Nat.lt_or_ge j (n + 1) with h | h
          · exact habove j hj1 (by omega)
          · have : j = n + 1 := by omega
            subst this
            exact hno
    · exact Or.inr ⟨ck, n + 1, heq, le_refl _, hhas, hfind,
        fun j hj1 hj2 => absurd (lt_of_lt_of_le hj1 hj2) (lt_irrefl _)⟩

/-- C8: under CRC-clean segments, the checkpoint search walks indices from
the active one down to `0` (missing files skipped via the archival
fallback), answers with the last `CHECKPOINT` record of the
highest-indexed segment holding one, and fails — necessarily with the
no-checkpoint error — exactly when no `CHECKPOINT` record exists in any
reachable segment. -/
theorem C8_checkpoint_search (store : SegStore) (current : Nat)
    (hclean : ∀ i, cleanSegAt store i) :
    (getLastCheckPointLSNWalEntry store current =
        .error Err.noCheckpoint ↔
      ∀ i, i ≤ current → segHasCheckpoint store i = false) ∧
    ((∃ e, getLastCheckPointLSNWalEntry store current = .error e) →
      getLastCheckPointLSNWalEntry store current =
        .error Err.noCheckpoint) ∧
    (∀ ck seg,
      getLastCheckPointLSNWalEntry store current = .ok (ck, seg) →
      seg ≤ current ∧ (ck.type == Log_Type.CHECKPOINT) = true ∧
      (∃ pre post, segRecords store seg = pre ++ ck :: post ∧
        ∀ r ∈ post, (r.type == Log_Type.CHECKPOINT) = false) ∧
      ∀ j, seg < j → j ≤ current →
        segHasCheckpoint store j = false) := by
  rcases locate_cases store hclean current with
    ⟨heq, hall⟩ | ⟨ck, seg, heq, hle, hhas, hfind, habove⟩
  · refine ⟨⟨fun _ => hall, fun _ => heq⟩, fun _ => heq, ?_⟩
    intro ck seg hok
    rw [heq] at hok
    cases hok
  · constructor
    · constructor
      · intro h
        rw [heq] at h
        cases h
      · intro hall
        exact absurd hhas (by simp [hall seg hle])
    · constructor
      · rintro ⟨e, he⟩
        rw [heq] at he
        cases he
      · intro ck2 seg2 hok
        rw [heq] at hok
        rcases Prod.mk.inj (Except.ok.inj hok) with ⟨rfl, rfl⟩
        obtain ⟨hp, l1, l2, hl, hl2⟩ := find_reverse_decomp hfind
        exact ⟨hle, hp, ⟨l1, l2, hl, hl2⟩, habove⟩

/-- A one-segment store: a checkpoint at LSN 1 followed by a data record at
LSN 2 in segment 0. -/
def entsW : List Entry :=
  [.framed (checkpointRecord 1), .framed (writeRecord 2 [5])]

/-- The demo store holding only segment 0. -/
def storeW : SegStore :=
  fun i => if i = 0 then SegFile.activeFile entsW else SegFile.absent

theorem storeW_clean : ∀ i, cleanSegAt storeW i := by
  intro i es h
  by_cases hi : i = 0
  · subst hi
    have : entsW = es := by
      simpa [storeW, SegFile.contents?] using h
    rw [this.symm]
    decide
  · simp [storeW, hi, SegFile.contents?] at h

/-- Witness for C8 at the one-segment demo store. -/
theorem C8_checkpoint_search_witness :
    (getLastCheckPointLSNWalEntry storeW 0 = .error Err.noCheckpoint ↔
      ∀ i, i ≤ 0 → segHasCheckpoint storeW i = false) ∧
    ((∃ e, getLastCheckPointLSNWalEntry storeW 0 = .error e) →
      getLastCheckPointLSNWalEntry storeW 0 = .error Err.noCheckpoint) ∧
    (∀ ck seg, getLastCheckPointLSNWalEntry storeW 0 = .ok (ck, seg) →
      seg ≤ 0 ∧ (ck.type == Log_Type.CHECKPOINT) = true ∧
      (∃ pre post, segRecords storeW seg = pre ++ ck :: post ∧
        ∀ r ∈ post, (r.type == Log_Type.CHECKPOINT) = false) ∧
      ∀ j, seg < j → j ≤ 0 → segHasCheckpoint storeW j = false) :=
  C8_checkpoint_search storeW 0 storeW_clean

/-! ## Recovery replay (C1) -/

theorem count_one_of_nodup_mem {α : Type} [BEq α] [LawfulBEq α]
    {l : List α} {a : α} (hnd : l.Nodup) (hin : a ∈ l) :
    l.count a = 1 := by
  induction l with
  | nil => cases hin
  | cons x xs ih =>
    rw [List.count_cons]
    rcases List.mem_cons.mp hin with rfl | hmem
    · have hnotin : a ∉ xs := (List.nodup_cons.mp hnd).1
      rw [List.count_eq_zero_of_not_mem hnotin]
      simp
    · have hne : a ≠ x := by
        intro hh
        subst hh
        exact (List.nodup_cons.mp hnd).1 hmem
      rw [ih (List.nodup_cons.mp hnd).2 hmem]
      simp [hne.symm]

theorem rangeIcc_zero (b : Nat) : rangeIcc 0 b = List.range (b + 1) := by
  simp [rangeIcc]

theorem range_split (seg current : Nat) (h : seg ≤ current) :
    List.range (current + 1) = List.range seg ++ rangeIcc seg current := by
  have h2 : current + 1 = seg + (current + 1 - seg) := by omega
  rw [h2, List.range_add]
  rfl

theorem mem_rangeIcc {a b i : Nat} : i ∈ rangeIcc a b ↔ a ≤ i ∧ i ≤ b := by
  unfold rangeIcc
  rw [List.mem_map]
  constructor
  · rintro ⟨k, hk, rfl⟩
    rw [List.mem_range] at hk
    omega
  · rintro ⟨h1, h2⟩
    exact ⟨i - a, List.mem_range.mpr (by omega), by omega⟩

theorem concatRecords_append (store : SegStore) (l1 l2 : List Nat) :
    concatRecords store (l1 ++ l2) =
      concatRecords store l1 ++ concatRecords store l2 := by
  induction l1 with
  | nil => simp [concatRecords]
  | cons i rest ih => simp [concatRecords, ih]

theorem mem_concatRecords (store : SegStore) {r : Wal_Data_Log} :
    ∀ {idxs : List Nat} {i : Nat}, i ∈ idxs → r ∈ segRecords store i →
      r ∈ concatRecords store idxs := by
  intro idxs
  induction idxs with
  | nil =>
    intro i h
    cases h
  | cons j rest ih =>
    intro i hi hr
    rcases List.mem_cons.mp hi with rfl | h
    · exact List.mem_append.mpr (Or.inl hr)
    · exact List.mem_append.mpr (Or.inr (ih h hr))

theorem replaySegments_ok (store : SegStore) (c : Nat) :
    ∀ idxs : List Nat,
      (∀ i ∈ idxs, cleanSegAt store i) →
      (∀ i ∈ idxs, ((store i).contents?).isSome = true) →
      replaySegments store c idxs =
        .ok (((concatRecords store idxs).filter
          (fun r => c < r.logSequenceNumber)).map recTriple) := by
  intro idxs
  induction idxs with
  | nil =>
    intro _ _
    rfl
  | cons i rest ih =>
    intro hclean hpres
    have hps := hpres i (List.mem_cons_self i rest)
    cases hc : (store i).contents? with
    | none =>
      rw [hc] at hps
      cases hps
    | some es =>
      have hcs := hclean i (List.mem_cons_self i rest) es hc
      have hnone := readAll_clean es hcs
      rcases hra : ReadAllDataLogs es with ⟨recs, oerr⟩
      rw [hra] at hnone
      have hoe : oerr = none := hnone
      subst hoe
      have hrest := ih
        (fun j hj => hclean j (List.mem_cons_of_mem i hj))
        (fun j hj => hpres j (List.mem_cons_of_mem i hj))
      have hsr : segRecords store i = recs := by
        unfold segRecords
        rw [hc]
        dsimp only
        rw [hra]
      simp only [replaySegments, concatRecords]
      rw [hc]
      dsimp only
      rw [hra]
      dsimp only
      rw [hrest]
      dsimp only
      rw [hsr]
      simp [List.filter_append]

/-- C1: on a CRC-clean, fully present log whose records carry strictly
increasing LSNs bounded by `lastLsn` and which holds at least one
`CHECKPOINT`, `RecoverFromCheckpoint` succeeds and its sink receives exactly
the records with LSN above the located checkpoint's — i.e. every record with
LSN in `(checkpoint.lsn, lastLsn]` exactly once — in strictly ascending LSN
order, scanning forward from the checkpoint's segment to the active one. -/
theorem C1_recover_stream (store : SegStore) (current lastLsn : Nat)
    (hclean : ∀ i, cleanSegAt store i)
    (hpres : ∀ i, i ≤ current → ((store i).contents?).isSome = true)
    (hasc : List.Pairwise
      (fun a b => a.logSequenceNumber < b.logSequenceNumber)
      (allRecords store current))
    (hlast : ∀ r ∈ allRecords store current,
      r.logSequenceNumber ≤ lastLsn)
    (hck : ∃ i, i ≤ current ∧ segHasCheckpoint store i = true) :
    ∃ ck seg out,
      getLastCheckPointLSNWalEntry store current = .ok (ck, seg) ∧
      RecoverFromCheckpoint store current = .ok out ∧
      out = ((allRecords store current).filter
        (fun r => ck.logSequenceNumber < r.logSequenceNumber)).map
          recTriple ∧
      List.Pairwise (fun a b => a.1 < b.1) out ∧
      ∀ r ∈ allRecords store current,
        ck.logSequenceNumber < r.logSequenceNumber →
        r.logSequenceNumber ≤ lastLsn ∧
        out.count (recTriple r) = 1 := by
  rcases locate_cases store hclean current with
    ⟨heq, hall⟩ | ⟨ck, seg, heq, hle, hhas, hfind, habove⟩
  · obtain ⟨i, hi, hhasi⟩ := hck
    rw [hall i hi] at hhasi
    cases hhasi
  · have hrep := replaySegments_ok store ck.logSequenceNumber
      (rangeIcc seg current)
      (fun i _ => hclean i)
      (fun i hi => hpres i (mem_rangeIcc.mp hi).2)
    have hrec : RecoverFromCheckpoint store current =
        replaySegments store ck.logSequenceNumber
          (rangeIcc seg current) := by
      unfold RecoverFromCheckpoint
      rw [heq]
    have hsplit : allRecords store current =
        concatRecords store (List.range seg) ++
          concatRecords store (rangeIcc seg current) := by
      unfold allRecords
      rw [rangeIcc_zero, range_split seg current hle,
        concatRecords_append]
    have hckmem : ck ∈ segRecords store seg :=
      List.mem_reverse.mp (List.mem_of_find?_eq_some hfind)
    have hckB : ck ∈ concatRecords store (rangeIcc seg current) :=
      mem_concatRecords store (mem_rangeIcc.mpr ⟨le_refl seg, hle⟩) hckmem
    have hpw := hasc
    rw [hsplit] at hpw
    have hparts := List.pairwise_append.mp hpw
    have hAfilter : (concatRecords store (List.range seg)).filter
        (fun r => ck.logSequenceNumber < r.logSequenceNumber) = [] := by
      rw [List.filter_eq_nil_iff]
      intro a ha
      have h2 := hparts.2.2 a ha ck hckB
      simp only [decide_eq_true_eq]
      omega
    have hout : ((allRecords store current).filter
        (fun r => ck.logSequenceNumber < r.logSequenceNumber)).map
          recTriple =
        ((concatRecords store (rangeIcc seg current)).filter
          (fun r => ck.logSequenceNumber < r.logSequenceNumber)).map
            recTriple := by
      rw [hsplit, List.filter_append, hAfilter]
      rfl
    have hfsub : List.Pairwise
        (fun a b => a.logSequenceNumber < b.logSequenceNumber)
        ((allRecords store current).filter
          (fun r => ck.logSequenceNumber < r.logSequenceNumber)) :=
      hasc.sublist (List.filter_sublist _)
    have hpairout : List.Pairwise (fun a b => a.1 < b.1)
        (((allRecords store current).filter
          (fun r => ck.logSequenceNumber < r.logSequenceNumber)).map
            recTriple) := by
      rw [List.pairwise_map]
      exact hfsub
    refine ⟨ck, seg,
      ((allRecords store current).filter
        (fun r => ck.logSequenceNumber < r.logSequenceNumber)).map
          recTriple,
      heq, ?_, rfl, hpairout, ?_⟩
    · rw [hrec, hrep, hout]
    · intro r hr hlt
      refine ⟨hlast r hr, ?_⟩
      have hnd : (((allRecords store current).filter
          (fun r => ck.logSequenceNumber < r.logSequenceNumber)).map
            recTriple).Nodup :=
        hpairout.imp
          (fun hab h2 => absurd (h2 ▸ hab) (lt_irrefl _))
      have hin : recTriple r ∈ ((allRecords store current).filter
          (fun r => ck.logSequenceNumber < r.logSequenceNumber)).map
            recTriple :=
        List.mem_map.mpr ⟨r,
          List.mem_filter.mpr ⟨hr, by simpa using hlt⟩, rfl⟩
      exact count_one_of_nodup_mem hnd hin

/-- Witness for C1 at the one-segment demo store (checkpoint LSN 1, data
record LSN 2, `lastLsn = 2`). -/
theorem C1_recover_stream_witness :
    ∃ ck seg out,
      getLastCheckPointLSNWalEntry storeW 0 = .ok (ck, seg) ∧
      RecoverFromCheckpoint storeW 0 = .ok out ∧
      out = ((allRecords storeW 0).filter
        (fun r => ck.logSequenceNumber < r.logSequenceNumber)).map
          recTriple ∧
      List.Pairwise (fun a b => a.1 < b.1) out ∧
      ∀ r ∈ allRecords storeW 0,
        ck.logSequenceNumber < r.logSequenceNumber →
        r.logSequenceNumber ≤ 2 ∧ out.count (recTriple r) = 1 :=
  C1_recover_stream storeW 0 2 storeW_clean
    (fun i hi => by
      have h0 : i = 0 := Nat.le_zero.mp hi
      subst h0
      decide)
    (by decide)
    (by decide)
    ⟨0, le_refl 0, by decide⟩

end Db
